import Mathlib

/-!
Verification of the checkpointed workflow-graph engine specification for the
`langgraph-supervisors` repository, together with shallow embeddings of the
demo routing code found under `src/`.

The repository's demo scripts are callers of the engine (channels, reducers,
checkpoints, scheduler, interrupt protocol).  The engine itself is not part of
the repository's sources, so it is modelled here from the specification
(definitions marked `Modelled from the spec:`).  The demo routing functions
(`supervisor_node`, `route_supervisor`, `qualifier_agent`, the
substring-matching supervisors) are embedded directly from the Python sources.
-/

namespace Engine

/-- Modelled from the spec: channel values.  The spec leaves value types
abstract; `append` channels require an ordered sequence, so values are
modelled as lists of naturals. -/
abbrev Value := List Nat

/-- Modelled from the spec: channel names. -/
abbrev ChannelName := String

/-- Modelled from the spec: the in-memory working state of one thread,
a mapping from channel name to current value (association list, keyed in
schema order). -/
abbrev ChannelValues := List (ChannelName × Value)

/-- Modelled from the spec (section 3, Channel): the reducer policy of a
channel.  `overwrite` = last writer wins, concurrent writers within one step
are a fatal error; `append` = ordered-sequence concatenation in node order;
`custom` = a merge function supplied by the graph author, which the engine
does not sandbox — an invalid/throwing reducer (modelled by returning `none`)
surfaces as `ReducerFailure`. -/
inductive Reducer where
  | overwrite
  | append
  | custom (f : Value → List Value → Option Value)

/-- Modelled from the spec: a channel declaration in the graph's schema. -/
structure ChannelDecl where
  name : ChannelName
  reducer : Reducer

/-- Modelled from the spec: an unrecoverable error raised by a node. -/
inductive NodeError where
  | unrecoverable (msg : String)
  deriving DecidableEq

/-- Modelled from the spec (section 7): the errors that abort a step without
committing a checkpoint. -/
inductive StepError where
  | nodeFailed (node : String)
  | concurrentOverwriteConflict (channel : ChannelName)
  | reducerFailure (channel : ChannelName)
  | unknownChannel
  | outOfFuel
  deriving DecidableEq

/-- Modelled from the spec (section 3, Node): a named unit of work mapping the
pre-step state to partial writes to zero or more channels, or failing. -/
structure NodeDef where
  name : String
  run : ChannelValues → Except NodeError (List (ChannelName × Value))

/-- Look up a channel's current value; declared channels always have a value,
with the empty sequence as the declared default. -/
def lookupVal (vs : ChannelValues) (c : ChannelName) : Value :=
  match vs with
  | [] => []
  | p :: rest => if p.1 = c then p.2 else lookupVal rest c

/-- The contributions made to channel `c` by a flattened write list, in
node-invocation order. -/
def writesFor (ws : List (ChannelName × Value)) (c : ChannelName) : List Value :=
  ws.filterMap (fun p => if p.1 = c then some p.2 else none)

/-- Modelled from the spec (section 4.1): `merge(current_value, contributions
in order)`.  A channel with no writers keeps its current value.  `overwrite`
fails with `ConcurrentOverwriteConflict` on more than one writer; `append` is
pure concatenation in contribution order; a failing `custom` reducer surfaces
as `ReducerFailure`. -/
def mergeChannel (c : ChannelName) (r : Reducer) (old : Value) (contribs : List Value) :
    Except StepError Value :=
  match contribs with
  | [] => Except.ok old
  | w :: rest =>
    match r with
    | Reducer.overwrite =>
      match rest with
      | [] => Except.ok w
      | _ :: _ => Except.error (StepError.concurrentOverwriteConflict c)
    | Reducer.append => Except.ok (old ++ (w :: rest).flatten)
    | Reducer.custom f =>
      match f old (w :: rest) with
      | some v => Except.ok v
      | none => Except.error (StepError.reducerFailure c)

/-- Merge all pending writes of a step into a new state, channel by channel in
schema order. -/
def mergeAll (schema : List ChannelDecl) (s : ChannelValues)
    (ws : List (ChannelName × Value)) : Except StepError ChannelValues :=
  match schema with
  | [] => Except.ok []
  | d :: rest =>
    match mergeChannel d.name d.reducer (lookupVal s d.name) (writesFor ws d.name) with
    | Except.error e => Except.error e
    | Except.ok v =>
      match mergeAll rest s ws with
      | Except.error e => Except.error e
      | Except.ok m => Except.ok ((d.name, v) :: m)

/-- Modelled from the spec (section 3, State): unknown channels are rejected at
write time. -/
def allDeclared (schema : List ChannelDecl) (ws : List (ChannelName × Value)) : Bool :=
  ws.all (fun p => schema.any (fun d => d.name = p.1))

/-- Run all frontier nodes against the same pre-step snapshot (read isolation
within the step), collecting their buffered writes in the fixed declared node
order; the step fails if any node fails. -/
def runNodes (frontier : List NodeDef) (s : ChannelValues) :
    Except StepError (List (ChannelName × Value)) :=
  match frontier with
  | [] => Except.ok []
  | n :: rest =>
    match n.run s with
    | Except.error _ => Except.error (StepError.nodeFailed n.name)
    | Except.ok w =>
      match runNodes rest s with
      | Except.error e => Except.error e
      | Except.ok rws => Except.ok (w ++ rws)

/-- Modelled from the spec (section 3, Checkpoint): an immutable snapshot of
all channel values with lineage pointer. -/
structure Checkpoint where
  checkpoint_id : Nat
  parent_checkpoint_id : Option Nat
  channel_values : ChannelValues
  deriving DecidableEq

/-- Modelled from the spec: the durable, append-only checkpoint log of a
single thread, newest checkpoint first. -/
structure ThreadStore where
  checkpoints : List Checkpoint
  deriving DecidableEq

/-- The thread's latest (authoritative) checkpoint, if any. -/
def latest (st : ThreadStore) : Option Checkpoint :=
  st.checkpoints.head?

/-- Modelled from the spec: atomically append a new checkpoint whose parent is
the prior latest checkpoint; `checkpoint_id`s are monotonically increasing
within the thread. -/
def commit (st : ThreadStore) (vals : ChannelValues) : ThreadStore :=
  ThreadStore.mk
    (Checkpoint.mk st.checkpoints.length
      ((latest st).map (fun cp => cp.checkpoint_id)) vals :: st.checkpoints)

/-- Modelled from the spec (section 4.3, superstep): run the frontier against
the pre-step snapshot, reject writes to undeclared channels, merge all pending
writes through the reducers, and commit exactly one new checkpoint; on any
failure the step aborts and the store is left untouched. -/
def runStep (schema : List ChannelDecl) (frontier : List NodeDef)
    (st : ThreadStore) (s : ChannelValues) :
    Except StepError ChannelValues × ThreadStore :=
  match runNodes frontier s with
  | Except.error e => (Except.error e, st)
  | Except.ok ws =>
    if allDeclared schema ws then
      match mergeAll schema s ws with
      | Except.error e => (Except.error e, st)
      | Except.ok vals => (Except.ok vals, commit st vals)
    else (Except.error StepError.unknownChannel, st)

/-- Modelled from the spec (section 6): the caller-facing outcome of a run.
Failures are returned as a tagged `Failed` value, never raised past the
engine. -/
inductive RunResult where
  | Completed (final_state : ChannelValues)
  | Failed (e : StepError)
  deriving DecidableEq

/-- Modelled from the spec (sections 4.2/4.3): a compiled graph, reduced to
the parts the execution engine consumes — the channel schema, the entry
frontier, and the routing function computing the next frontier from the
post-step state (`[]` means every router chose the terminal marker). -/
structure GraphDef where
  schema : List ChannelDecl
  entry : List NodeDef
  router : ChannelValues → List NodeDef

/-- Modelled from the spec (section 4.3): the stepping loop.  Fuel models the
caller-configurable timeout: exhausting it aborts the current step as a
`Failed` step without committing. -/
def runLoop (g : GraphDef) : Nat → List NodeDef → ThreadStore → ChannelValues →
    RunResult × ThreadStore
  | 0, _, st, _ => (RunResult.Failed StepError.outOfFuel, st)
  | Nat.succ fuel, frontier, st, s =>
    match frontier with
    | [] => (RunResult.Completed s, st)
    | n :: rest =>
      match runStep g.schema (n :: rest) st s with
      | (Except.error e, _) => (RunResult.Failed e, st)
      | (Except.ok vals, st1) => runLoop g fuel (g.router vals) st1 vals

/-- Modelled from the spec (section 6, `run`): load the latest checkpoint (or
synthesize the initial state), apply the caller's input as one more set of
pending writes, commit the resulting state, then step until halt. -/
def run (g : GraphDef) (fuel : Nat) (input : List (ChannelName × Value))
    (st : ThreadStore) : RunResult × ThreadStore :=
  let base : ChannelValues :=
    match latest st with
    | none => []
    | some cp => cp.channel_values
  if allDeclared g.schema input then
    match mergeAll g.schema base input with
    | Except.error e => (RunResult.Failed e, st)
    | Except.ok s0 => runLoop g fuel g.entry (commit st s0) s0
  else (RunResult.Failed StepError.unknownChannel, st)

/-- Modelled from the spec (section 6): `get_state` returns the latest
checkpoint's id and channel values. -/
def get_state (st : ThreadStore) : Option (Nat × ChannelValues) :=
  (latest st).map (fun cp => (cp.checkpoint_id, cp.channel_values))

/-- Modelled from the spec (section 6): `get_history` enumerates the thread's
checkpoints, most recent first. -/
def get_history (st : ThreadStore) : List Checkpoint :=
  st.checkpoints

/-- The structural invariant of an engine-produced checkpoint log: each
checkpoint's id is the number of older checkpoints, and its parent pointer is
the id of the next-older checkpoint (`none` for the thread's first). -/
def storeInv : List Checkpoint → Bool
  | [] => true
  | cp :: rest =>
    decide (cp.checkpoint_id = rest.length) &&
    decide (cp.parent_checkpoint_id = rest.head?.map (fun c => c.checkpoint_id)) &&
    storeInv rest

/-- The parent-chain property of a newest-first history: each entry's parent
is the next-older entry's id, and the oldest entry has no parent. -/
def isParentChain : List Checkpoint → Bool
  | [] => true
  | [cp] => decide (cp.parent_checkpoint_id = none)
  | cp :: cp2 :: rest =>
    decide (cp.parent_checkpoint_id = some cp2.checkpoint_id) &&
    isParentChain (cp2 :: rest)

/-- Checkpoint ids strictly decrease along a newest-first history (so the
chain has no cycles and is newest-first ordered). -/
def idsStrictDesc : List Checkpoint → Bool
  | [] => true
  | [_] => true
  | cp :: cp2 :: rest =>
    decide (cp2.checkpoint_id < cp.checkpoint_id) && idsStrictDesc (cp2 :: rest)

/-- No two checkpoints in the log share a parent pointer. -/
def nodupParents : List Checkpoint → Bool
  | [] => true
  | cp :: rest =>
    rest.all (fun c => decide (c.parent_checkpoint_id ≠ cp.parent_checkpoint_id)) &&
    nodupParents rest

/-- Modelled from the spec (section 4.4): the decision supplied on resume. -/
inductive Decision where
  | approve
  | edit (new_arguments : Value)
  | reject
  deriving DecidableEq

/-- Modelled from the spec (section 4.4): the body of a node that may suspend.
`ret` finishes immediately with its writes; `suspendOn` stops at a suspension
point carrying the payload, and its continuation maps the injected decision
(the return value of the `suspend` call) to the node's remaining writes. -/
inductive NodeProg where
  | ret (writes : List (ChannelName × Value))
  | suspendOn (payload : Value) (cont : Decision → List (ChannelName × Value))

/-- Modelled from the spec (section 4.4): the durable record of a suspension —
the node's continuation at the suspension point together with the frozen
store and pre-step state. -/
structure PendingInterrupt where
  cont : Decision → List (ChannelName × Value)
  st : ThreadStore
  s : ChannelValues

/-- Modelled from the spec (section 4.4): the outcome of running a step whose
node may suspend — either the usual run result, or a `Suspended` pause token
carrying the payload and the durable pending record. -/
inductive HitlOutcome where
  | finished (res : RunResult × ThreadStore)
  | suspended (payload : Value) (pending : PendingInterrupt)

/-- Complete the current step with the given node writes (merge through the
reducers, commit, route) and continue stepping to termination. -/
def runFrom (g : GraphDef) (fuel : Nat) (writes : List (ChannelName × Value))
    (st : ThreadStore) (s : ChannelValues) : RunResult × ThreadStore :=
  if allDeclared g.schema writes then
    match mergeAll g.schema s writes with
    | Except.error e => (RunResult.Failed e, st)
    | Except.ok vals => runLoop g fuel (g.router vals) (commit st vals) vals
  else (RunResult.Failed StepError.unknownChannel, st)

/-- Modelled from the spec (section 4.4): executing a possibly-suspending node
within a step.  A `suspendOn` node freezes the thread at `Suspended` with the
payload durably recorded and nothing committed; a `ret` node completes the
step normally. -/
def runWithHitl (g : GraphDef) (fuel : Nat) (p : NodeProg) (st : ThreadStore)
    (s : ChannelValues) : HitlOutcome :=
  match p with
  | NodeProg.ret w => HitlOutcome.finished (runFrom g fuel w st s)
  | NodeProg.suspendOn payload cont =>
    HitlOutcome.suspended payload (PendingInterrupt.mk cont st s)

/-- Modelled from the spec (section 4.4): `resume` re-enters the same node at
the suspension point, with the decision injected as the `suspend` call's
return value, and execution continues normally from there within the same
step. -/
def resume (g : GraphDef) (fuel : Nat) (pend : PendingInterrupt) (d : Decision) :
    RunResult × ThreadStore :=
  runFrom g fuel (pend.cont d) pend.st pend.s

/-- Modelled from the spec (section 5): the engine state of one thread — its
per-thread execution lock and its checkpoint store. -/
structure EngineState where
  lock : Bool
  store : ThreadStore

/-- Modelled from the spec (section 5): the result a caller of `run`/`resume`
observes — either an ordinary run result, or an immediate `ThreadBusy`
rejection. -/
inductive CallResult where
  | done (r : RunResult)
  | threadBusy

/-- Modelled from the spec (section 5): atomically test-and-set the per-thread
execution lock. -/
def tryAcquire (e : EngineState) : Bool × EngineState :=
  if e.lock then (false, e) else (true, EngineState.mk true e.store)

/-- Run a call that already holds the lock, then release it. -/
def finishRun (g : GraphDef) (fuel : Nat) (input : List (ChannelName × Value))
    (e : EngineState) : CallResult × EngineState :=
  match run g fuel input e.store with
  | (r, st1) => (CallResult.done r, EngineState.mk false st1)

/-- A single `run` call: attempt the lock; on failure the call is rejected
immediately with `ThreadBusy` (never queued), on success it runs and
releases. -/
def runCall (g : GraphDef) (fuel : Nat) (input : List (ChannelName × Value))
    (e : EngineState) : CallResult × EngineState :=
  match tryAcquire e with
  | (true, e1) => finishRun g fuel input e1
  | (false, e1) => (CallResult.threadBusy, e1)

/-- Modelled from the spec (section 5): two concurrent calls on the same
thread.  `first` selects which call reaches the lock first; the other call
arrives while the winner still holds the lock (that is what makes the two
calls concurrent) and so observes the lock held. -/
def interleavedRun (first : Bool) (g1 : GraphDef) (fuel1 : Nat)
    (in1 : List (ChannelName × Value)) (g2 : GraphDef) (fuel2 : Nat)
    (in2 : List (ChannelName × Value)) (e : EngineState) :
    (CallResult × CallResult) × EngineState :=
  if first then
    match tryAcquire e with
    | (true, e1) =>
      match runCall g2 fuel2 in2 e1 with
      | (r2, e2) =>
        match finishRun g1 fuel1 in1 e2 with
        | (r1, e3) => ((r1, r2), e3)
    | (false, e1) =>
      match runCall g2 fuel2 in2 e1 with
      | (r2, e2) => ((CallResult.threadBusy, r2), e2)
  else
    match tryAcquire e with
    | (true, e1) =>
      match runCall g1 fuel1 in1 e1 with
      | (r1, e2) =>
        match finishRun g2 fuel2 in2 e2 with
        | (r2, e3) => ((r1, r2), e3)
    | (false, e1) =>
      match runCall g1 fuel1 in1 e1 with
      | (r1, e2) => ((r1, CallResult.threadBusy), e2)

end Engine

namespace PyStr

/-- `needle` is a prefix of `hay` (character lists). -/
def isPre : List Char → List Char → Bool
  | [], _ => true
  | _ :: _, [] => false
  | a :: as, b :: bs => a == b && isPre as bs

/-- `needle` occurs as a contiguous substring of `hay` (character lists). -/
def hasSub (needle : List Char) : List Char → Bool
  | [] => isPre needle []
  | c :: rest => isPre needle (c :: rest) || hasSub needle rest

/-- Python's `needle in hay` substring test on strings. -/
def containsSub (hay needle : String) : Bool :=
  hasSub needle.data hay.data

/-- ASCII lowercasing of one character (the demos' routing strings and
keywords are all ASCII, so this models Python's `str.lower`). -/
def lowerChar (c : Char) : Char :=
  if 65 ≤ c.toNat && c.toNat ≤ 90 then Char.ofNat (c.toNat + 32) else c

/-- Python's `str.lower` (ASCII model). -/
def toLowerPy (s : String) : String :=
  String.mk (s.data.map lowerChar)

/-- ASCII whitespace, as stripped by Python's `str.strip`. -/
def isSpaceChar (c : Char) : Bool :=
  c == ' ' || c == '\t' || c == '\n' || c == '\r'

/-- Drop leading whitespace characters. -/
def dropLeading : List Char → List Char
  | [] => []
  | c :: rest => if isSpaceChar c then dropLeading rest else c :: rest

/-- Python's `str.strip` (ASCII-whitespace model). -/
def stripPy (s : String) : String :=
  String.mk ((dropLeading (dropLeading s.data).reverse).reverse)

end PyStr

namespace SharedStateDemo

/-!
Embedded from `src/shared-state-langgraph-multi-agent-demo/main.py`.

A web-search result dict (only `content` and `url` keys are ever stored). -/

structure WebResult where
  content : String
  url : String
  deriving DecidableEq

/-- One chat message, reduced to its text content (the demo only ever appends
messages and reads their `content`). -/
abbrev Message := String

/-- Embedded from `ResearchState` (main.py lines 96-127): the shared state all
agents read and write.  `confidence_score` is a Python float; it is carried
opaquely here (no node in the claims reads or writes it). -/
structure ResearchState where
  messages : List Message
  research_query : String
  web_results : List WebResult
  sources : List String
  key_findings : List String
  analysis : String
  confidence_score : Float
  final_report : String
  current_step : String
  completed_steps : List String
  next_agent : String

/-- The partial state update returned by `supervisor_node`. -/
structure SupervisorUpdate where
  messages : List Message
  next_agent : String
  current_step : String
  completed_steps : List String
  deriving DecidableEq

/-- Embedded from `supervisor_node` (main.py lines 528-583): the state-aware
routing decision, computed purely from which shared-state fields are present
(`web_results`, `analysis`, `final_report`). -/
def supervisor_decision (state : ResearchState) : String × String :=
  if state.web_results.isEmpty then ("research", "Gathering research")
  else if state.analysis == "" then ("analysis", "Analyzing findings")
  else if state.final_report == "" then ("report", "Creating report")
  else ("FINISH", "Complete")

/-- Embedded from `supervisor_node` (main.py lines 528-583).  The language
model's reply is an opaque input (`modelResponse`): the node records it in
`messages` but the routing decision is computed from the state alone. -/
def supervisor_node (state : ResearchState) (modelResponse : Message) :
    SupervisorUpdate :=
  let d := supervisor_decision state
  let next_agent := d.1
  let current_step := d.2
  let completed_steps :=
    if next_agent != "FINISH" && !(state.completed_steps.contains current_step) then
      state.completed_steps ++ [current_step]
    else
      state.completed_steps
  SupervisorUpdate.mk [modelResponse] next_agent current_step completed_steps

/-- Applying the supervisor's partial update to the shared state: `messages`
is an `add_messages` (append) channel, the other written fields are
last-value channels. -/
def applyUpdate (state : ResearchState) (u : SupervisorUpdate) : ResearchState :=
  ResearchState.mk (state.messages ++ u.messages) state.research_query
    state.web_results state.sources state.key_findings state.analysis
    state.confidence_score state.final_report u.current_step
    u.completed_steps u.next_agent

/-- Embedded from `route_supervisor` (main.py lines 589-600): the conditional
edge mapping the supervisor's stored decision to a destination. -/
def route_supervisor (state : ResearchState) : String :=
  let next_agent := state.next_agent
  if next_agent == "research" then "research"
  else if next_agent == "analysis" then "analysis"
  else if next_agent == "report" then "report"
  else "__end__"

end SharedStateDemo

namespace Sales

/-!
Embedded from `src/stateful-supabase-checkpointer-sales/sales_qualification.py`.
-/

/-- One chat message, reduced to its text content. -/
structure SalesMessage where
  content : String
  deriving DecidableEq

/-- Embedded from `SalesState` (sales_qualification.py lines 75-101), the
fields `qualifier_agent` reads: the message history and the tri-state
`can_afford` flag (`none` models the key being absent/None). -/
structure SalesState where
  messages : List SalesMessage
  user_id : String
  can_afford : Option Bool
  deriving DecidableEq

/-- The partial state update returned by `qualifier_agent`; `none` fields
model dict keys the branch does not return. -/
structure QualifierUpdate where
  messages : List SalesMessage
  qualification : Option Bool
  can_afford : Option Bool
  budget : Option Nat
  current_stage : String
  last_updated : String
  deriving DecidableEq

/-- The keyword list of `qualifier_agent`'s simple keyword detection. -/
def affordKeywords : List String := ["yes", "yeah", "sure", "afford", "can"]

/-- The content of the last message, or the empty string when there are no
messages (embeds `messages[-1].content if messages else ""`). -/
def lastContent (messages : List SalesMessage) : String :=
  match messages.getLast? with
  | some m => m.content
  | none => ""

/-- Embedded from `qualifier_agent` (lines 146-148): lowercase the last
message and test whether any keyword occurs in it as a substring. -/
def keywordHit (messages : List SalesMessage) : Bool :=
  let response_lower := PyStr.toLowerPy (lastContent messages)
  affordKeywords.any (fun w => PyStr.containsSub response_lower w)

/-- The canned reply of the qualified branch. -/
def qualifiedReply : String :=
  "Excellent! You\x27re qualified for our program. Let me connect you with our closer who will help you complete your enrollment."

/-- The canned reply of the disqualified branch. -/
def disqualifiedReply : String :=
  "I understand. Unfortunately, this program requires a $300 investment. Feel free to reach out when you\x27re ready!"

/-- Embedded from `qualifier_agent` (sales_qualification.py lines 107-161).
The model's reply to the budget question is an opaque input (`modelResponse`,
used only in the first-contact branch); `now` stands for
`datetime.now().isoformat()`. -/
def qualifier_agent (state : SalesState) (modelResponse : String) (now : String) :
    QualifierUpdate :=
  match state.can_afford with
  | none =>
    QualifierUpdate.mk [SalesMessage.mk modelResponse] none none none "qualifying" now
  | some _ =>
    if keywordHit state.messages then
      QualifierUpdate.mk [SalesMessage.mk qualifiedReply]
        (some true) (some true) (some 300) "closing" now
    else
      QualifierUpdate.mk [SalesMessage.mk disqualifiedReply]
        (some false) (some false) none "disqualified" now

end Sales

namespace EmailCal

/-!
Embedded from `src/supervisor-langgraph-email-cal-demo/main.py` and
`src/hierarchical-team-pattern-langgraph/main.py`.
-/

/-- Embedded from `supervisor_node` (supervisor-langgraph-email-cal-demo
main.py lines 135-148): extract the routing decision from the model's reply
by first-matching-substring. -/
def supervisorNextAgent (responseContent : String) : String :=
  let content := PyStr.toLowerPy (PyStr.stripPy responseContent)
  if PyStr.containsSub content "calendar" then "calendar"
  else if PyStr.containsSub content "email" then "email"
  else "FINISH"

/-- Embedded from `communication_supervisor_node`
(hierarchical-team-pattern-langgraph main.py lines 206-220): the
communication-team supervisor's first-matching-substring routing. -/
def communicationNextAgent (responseContent : String) : String :=
  let content := PyStr.toLowerPy (PyStr.stripPy responseContent)
  if PyStr.containsSub content "email" then "email"
  else if PyStr.containsSub content "slack" then "slack"
  else "FINISH"

end EmailCal


namespace Fixtures

/-!
Concrete instances used to evaluate the theorems on explicit inputs
(the two-node `append` scenario of spec section 8, a failing node, an
`overwrite` conflict, and a one-node halting graph).
-/

open Engine

/-- Schema with a single `append` channel `log` (spec section 8 scenario). -/
def schemaLog : List ChannelDecl := [ChannelDecl.mk "log" Reducer.append]

/-- Schema with a single `overwrite` channel `next`. -/
def schemaNext : List ChannelDecl := [ChannelDecl.mk "next" Reducer.overwrite]

/-- `node1` of the spec section 8 scenario: writes `[1]` to `log`. -/
def nodeA : NodeDef := NodeDef.mk "node1" (fun _ => Except.ok [("log", [1])])

/-- `node2` of the spec section 8 scenario: writes `[2]` to `log`. -/
def nodeB : NodeDef := NodeDef.mk "node2" (fun _ => Except.ok [("log", [2])])

/-- A node that raises an unrecoverable error. -/
def nodeBoom : NodeDef :=
  NodeDef.mk "boom" (fun _ => Except.error (NodeError.unrecoverable "boom"))

/-- Two nodes that both write the `next` overwrite channel in one step. -/
def nodeNextA : NodeDef := NodeDef.mk "supA" (fun _ => Except.ok [("next", [1])])

/-- Second writer of the `next` overwrite channel. -/
def nodeNextB : NodeDef := NodeDef.mk "supB" (fun _ => Except.ok [("next", [2])])

/-- Schema with a single `custom` channel `acc` whose reducer always fails
(models an invalid/throwing author-supplied reducer). -/
def schemaAcc : List ChannelDecl :=
  [ChannelDecl.mk "acc" (Reducer.custom (fun _ _ => none))]

/-- A node writing the `acc` custom channel. -/
def nodeAcc : NodeDef := NodeDef.mk "accWriter" (fun _ => Except.ok [("acc", [5])])

/-- A graph over `log` that runs `node1` once and then halts. -/
def gOnce : GraphDef := GraphDef.mk schemaLog [nodeA] (fun _ => [])

/-- A graph over the `next` overwrite channel whose single step runs the two
conflicting writers. -/
def gNext : GraphDef := GraphDef.mk schemaNext [nodeNextA, nodeNextB] (fun _ => [])

/-- A graph over the failing `custom` channel `acc`. -/
def gAcc : GraphDef := GraphDef.mk schemaAcc [nodeAcc] (fun _ => [])

/-- The empty checkpoint store of a fresh thread. -/
def stEmpty : ThreadStore := ThreadStore.mk []

/-- A store holding two committed checkpoints, built by the engine's append
operation. -/
def stTwo : ThreadStore := commit (commit stEmpty [("log", [0])]) [("log", [0, 1])]

/-- A fresh engine thread state: lock free, no checkpoints. -/
def engFresh : EngineState := EngineState.mk false stEmpty

/-- A sales state whose last message is the refusal from claim C9, with the
budget question already asked (`can_afford` set). -/
def refusalState : Sales.SalesState :=
  Sales.SalesState.mk [Sales.SalesMessage.mk "No, I can\x27t afford $300"]
    "user-1" (some false)

end Fixtures

namespace Engine

/-! ### Lemmas about a single superstep -/

theorem writesFor_pair_same (c : ChannelName) (wa wb : Value) :
    writesFor [(c, wa), (c, wb)] c = [wa, wb] := by
  simp [writesFor]

theorem writesFor_pair_other (c c2 : ChannelName) (wa wb : Value) (h : c2 ≠ c) :
    writesFor [(c, wa), (c, wb)] c2 = [] := by
  have hc : ¬(c = c2) := fun hc => h hc.symm
  simp [writesFor, hc]

theorem mergeAll_append_pair (c : ChannelName) (wa wb : Value) (s : ChannelValues) :
    ∀ schema : List ChannelDecl,
      (∀ d ∈ schema, d.name = c → d.reducer = Reducer.append) →
      ∃ m, mergeAll schema s [(c, wa), (c, wb)] = Except.ok m ∧
        ((∃ d ∈ schema, d.name = c) → lookupVal m c = lookupVal s c ++ (wa ++ wb))
  | [], _ => by
    refine ⟨[], rfl, ?_⟩
    rintro ⟨d, hd, -⟩
    exact absurd hd (List.not_mem_nil d)
  | d :: rest, hall => by
    obtain ⟨m, hm, hlook⟩ :=
      mergeAll_append_pair c wa wb s rest
        (fun d2 hd2 hn => hall d2 (List.mem_cons_of_mem d hd2) hn)
    by_cases hname : d.name = c
    · have hred : d.reducer = Reducer.append := hall d (List.mem_cons_self d rest) hname
      refine ⟨(d.name, lookupVal s d.name ++ (wa ++ wb)) :: m, ?_, ?_⟩
      · simp only [mergeAll, hname, writesFor_pair_same, hred, mergeChannel, hm]
        simp [List.flatten]
      · intro _
        simp [lookupVal, hname]
    · refine ⟨(d.name, lookupVal s d.name) :: m, ?_, ?_⟩
      · simp only [mergeAll, writesFor_pair_other c d.name wa wb hname, mergeChannel, hm]
      · rintro ⟨d2, hd2, hd2n⟩
        rcases List.mem_cons.mp hd2 with h | h
        · exact absurd (h ▸ hd2n) hname
        · simpa [lookupVal, hname] using hlook ⟨d2, h, hd2n⟩

theorem mergeAll_overwrite_pair (c : ChannelName) (wa wb : Value) (s : ChannelValues) :
    ∀ schema : List ChannelDecl,
      (∀ d ∈ schema, d.name = c → d.reducer = Reducer.overwrite) →
      (∃ d ∈ schema, d.name = c) →
      mergeAll schema s [(c, wa), (c, wb)] =
        Except.error (StepError.concurrentOverwriteConflict c)
  | [], _, hmem => by
    obtain ⟨d, hd, -⟩ := hmem
    exact absurd hd (List.not_mem_nil d)
  | d :: rest, hall, hmem => by
    by_cases hname : d.name = c
    · have hred : d.reducer = Reducer.overwrite := hall d (List.mem_cons_self d rest) hname
      simp only [mergeAll, hname, writesFor_pair_same, hred, mergeChannel]
    · have hmem2 : ∃ d2 ∈ rest, d2.name = c := by
        obtain ⟨d2, hd2, hd2n⟩ := hmem
        rcases List.mem_cons.mp hd2 with h | h
        · exact absurd (h ▸ hd2n) hname
        · exact ⟨d2, h, hd2n⟩
      have hrec :=
        mergeAll_overwrite_pair c wa wb s rest
          (fun d2 hd2 hn => hall d2 (List.mem_cons_of_mem d hd2) hn) hmem2
      simp only [mergeAll, writesFor_pair_other c d.name wa wb hname, mergeChannel, hrec]

theorem allDeclared_pair_same (schema : List ChannelDecl) (c : ChannelName)
    (wa wb : Value) (hmem : ∃ d ∈ schema, d.name = c) :
    allDeclared schema [(c, wa), (c, wb)] = true := by
  obtain ⟨d, hd, hdn⟩ := hmem
  simp only [allDeclared, List.all_eq_true, List.any_eq_true]
  rintro p hp
  rcases List.mem_cons.mp hp with h | h
  · exact ⟨d, hd, by simp [h, hdn]⟩
  · rcases List.mem_cons.mp h with h2 | h2
    · exact ⟨d, hd, by simp [h2, hdn]⟩
    · exact absurd h2 (List.not_mem_nil p)

theorem runNodes_pair (A B : NodeDef) (s : ChannelValues)
    (wA wB : List (ChannelName × Value))
    (hA : A.run s = Except.ok wA) (hB : B.run s = Except.ok wB) :
    runNodes [A, B] s = Except.ok (wA ++ wB) := by
  simp [runNodes, hA, hB]

end Engine

namespace Engine

theorem runNodes_error_of_mem (s : ChannelValues) (n : NodeDef) (err : NodeError) :
    ∀ frontier : List NodeDef, n ∈ frontier → n.run s = Except.error err →
      ∃ name, runNodes frontier s = Except.error (StepError.nodeFailed name)
  | [], hmem, _ => absurd hmem (List.not_mem_nil n)
  | m :: rest, hmem, hfail => by
    rcases List.mem_cons.mp hmem with h | h
    · subst h
      exact ⟨n.name, by simp [runNodes, hfail]⟩
    · obtain ⟨name, hname⟩ := runNodes_error_of_mem s n err rest h hfail
      cases hrun : m.run s with
      | error e => exact ⟨m.name, by simp [runNodes, hrun]⟩
      | ok w => exact ⟨name, by simp [runNodes, hrun, hname]⟩

theorem runStep_error_store (schema : List ChannelDecl) (frontier : List NodeDef)
    (st : ThreadStore) (s : ChannelValues) (e : StepError)
    (h : (runStep schema frontier st s).1 = Except.error e) :
    (runStep schema frontier st s).2 = st := by
  unfold runStep at h ⊢
  cases hrn : runNodes frontier s with
  | error e2 => simp [hrn]
  | ok ws =>
    simp only [hrn] at h ⊢
    by_cases hd : allDeclared schema ws = true
    · simp only [hd, if_true] at h ⊢
      cases hm : mergeAll schema s ws with
      | error e2 => simp [hm]
      | ok vals => simp [hm] at h
    · simp [hd]

theorem runStep_shape (schema : List ChannelDecl) (frontier : List NodeDef)
    (st : ThreadStore) (s : ChannelValues) :
    (∃ e, runStep schema frontier st s = (Except.error e, st)) ∨
    (∃ vals, runStep schema frontier st s = (Except.ok vals, commit st vals)) := by
  unfold runStep
  cases hrn : runNodes frontier s with
  | error e => exact Or.inl ⟨e, rfl⟩
  | ok ws =>
    by_cases hd : allDeclared schema ws = true
    · simp only [hd, if_true]
      cases hm : mergeAll schema s ws with
      | error e => exact Or.inl ⟨e, rfl⟩
      | ok vals => exact Or.inr ⟨vals, rfl⟩
    · simp only [hd]
      exact Or.inl ⟨StepError.unknownChannel, by simp⟩

/-! ### Lemmas about the checkpoint log invariant -/

theorem storeInv_cons (cp : Checkpoint) (rest : List Checkpoint) :
    storeInv (cp :: rest) = true ↔
      cp.checkpoint_id = rest.length ∧
      cp.parent_checkpoint_id = rest.head?.map (fun c => c.checkpoint_id) ∧
      storeInv rest = true := by
  simp [storeInv, Bool.and_eq_true, decide_eq_true_eq, and_assoc]

theorem storeInv_commit (st : ThreadStore) (vals : ChannelValues)
    (h : storeInv st.checkpoints = true) :
    storeInv (commit st vals).checkpoints = true := by
  simp only [commit]
  rw [storeInv_cons]
  exact ⟨rfl, rfl, h⟩

theorem runStep_inv (schema : List ChannelDecl) (frontier : List NodeDef)
    (st : ThreadStore) (s : ChannelValues)
    (h : storeInv st.checkpoints = true) :
    storeInv (runStep schema frontier st s).2.checkpoints = true := by
  rcases runStep_shape schema frontier st s with ⟨e, heq⟩ | ⟨vals, heq⟩
  · rw [heq]; exact h
  · rw [heq]; exact storeInv_commit st vals h

theorem runLoop_inv (g : GraphDef) :
    ∀ (fuel : Nat) (frontier : List NodeDef) (st : ThreadStore) (s : ChannelValues),
      storeInv st.checkpoints = true →
      storeInv (runLoop g fuel frontier st s).2.checkpoints = true
  | 0, _, st, _, h => h
  | Nat.succ fuel, frontier, st, s, h => by
    cases frontier with
    | nil => exact h
    | cons n rest =>
      simp only [runLoop]
      rcases runStep_shape g.schema (n :: rest) st s with ⟨e, heq⟩ | ⟨vals, heq⟩
      · rw [heq]; exact h
      · rw [heq]
        exact runLoop_inv g fuel (g.router vals) (commit st vals) vals
          (storeInv_commit st vals h)

theorem run_inv (g : GraphDef) (fuel : Nat) (input : List (ChannelName × Value))
    (st : ThreadStore) (h : storeInv st.checkpoints = true) :
    storeInv (run g fuel input st).2.checkpoints = true := by
  unfold run
  by_cases hd : allDeclared g.schema input = true
  · simp only [hd, if_true]
    cases hm : mergeAll g.schema
        (match latest st with
         | none => []
         | some cp => cp.channel_values) input with
    | error e => exact h
    | ok s0 => exact runLoop_inv g fuel g.entry (commit st s0) s0 (storeInv_commit st s0 h)
  · simp only [hd, if_false]
    exact h

end Engine

namespace Engine

theorem storeInv_chain : ∀ l : List Checkpoint, storeInv l = true → isParentChain l = true
  | [], _ => rfl
  | [cp], h => by
    rw [storeInv_cons] at h
    simp [isParentChain, h.2.1]
  | cp :: cp2 :: rest, h => by
    rw [storeInv_cons] at h
    have hrec := storeInv_chain (cp2 :: rest) h.2.2
    simp only [isParentChain, hrec, Bool.and_true]
    simp [h.2.1]

theorem storeInv_head_id : ∀ l : List Checkpoint, storeInv l = true →
    ∀ cp, l.head? = some cp → cp.checkpoint_id + 1 = l.length
  | [], _, cp, h => by simp at h
  | cp0 :: rest, h, cp, hh => by
    rw [storeInv_cons] at h
    simp only [List.head?] at hh
    cases hh
    simp [h.1]

theorem storeInv_desc : ∀ l : List Checkpoint, storeInv l = true → idsStrictDesc l = true
  | [], _ => rfl
  | [_], _ => rfl
  | cp :: cp2 :: rest, h => by
    rw [storeInv_cons] at h
    have hrec := storeInv_desc (cp2 :: rest) h.2.2
    have h2 : cp2.checkpoint_id + 1 = (cp2 :: rest).length :=
      storeInv_head_id (cp2 :: rest) h.2.2 cp2 rfl
    simp only [idsStrictDesc, hrec, Bool.and_true, decide_eq_true_eq]
    have := h.1
    simp only [List.length_cons] at this h2
    omega

theorem storeInv_id_lt : ∀ l : List Checkpoint, storeInv l = true →
    ∀ cp ∈ l, cp.checkpoint_id < l.length
  | [], _, cp, hm => absurd hm (List.not_mem_nil cp)
  | cp0 :: rest, h, cp, hm => by
    rw [storeInv_cons] at h
    rcases List.mem_cons.mp hm with heq | hmem
    · subst heq
      simp [h.1]
    · have := storeInv_id_lt rest h.2.2 cp hmem
      simp only [List.length_cons]
      omega

theorem storeInv_parent_shape : ∀ l : List Checkpoint, storeInv l = true →
    ∀ cp ∈ l, (cp.checkpoint_id = 0 ∧ cp.parent_checkpoint_id = none) ∨
      (∃ k, cp.checkpoint_id = k + 1 ∧ cp.parent_checkpoint_id = some k)
  | [], _, cp, hm => absurd hm (List.not_mem_nil cp)
  | cp0 :: rest, h, cp, hm => by
    rw [storeInv_cons] at h
    rcases List.mem_cons.mp hm with heq | hmem
    · subst heq
      cases rest with
      | nil =>
        left
        refine ⟨by simpa using h.1, by simpa using h.2.1⟩
      | cons cp2 rest2 =>
        right
        refine ⟨cp2.checkpoint_id, ?_, by simpa using h.2.1⟩
        have h2 : cp2.checkpoint_id + 1 = (cp2 :: rest2).length :=
          storeInv_head_id (cp2 :: rest2) h.2.2 cp2 rfl
        have := h.1
        simp only [List.length_cons] at this h2
        omega
    · exact storeInv_parent_shape rest h.2.2 cp hmem

theorem storeInv_nodupParents : ∀ l : List Checkpoint, storeInv l = true →
    nodupParents l = true
  | [], _ => rfl
  | cp0 :: rest, h => by
    have hc := (storeInv_cons cp0 rest).mp h
    have hrec := storeInv_nodupParents rest hc.2.2
    simp only [nodupParents, Bool.and_eq_true, List.all_eq_true, decide_eq_true_eq]
    refine ⟨?_, hrec⟩
    intro cp hcp heq
    cases rest with
    | nil => exact absurd hcp (List.not_mem_nil cp)
    | cons cp2 rest2 =>
      have hp0 : cp0.parent_checkpoint_id = some cp2.checkpoint_id := by
        simpa using hc.2.1
      have h2 : cp2.checkpoint_id + 1 = (cp2 :: rest2).length :=
        storeInv_head_id (cp2 :: rest2) hc.2.2 cp2 rfl
      rcases storeInv_parent_shape (cp2 :: rest2) hc.2.2 cp hcp with ⟨-, hnone⟩ | ⟨k, hid, hsome⟩
      · rw [heq, hp0] at hnone
        exact Option.noConfusion hnone
      · rw [heq, hp0] at hsome
        have hk : cp2.checkpoint_id = k := by
          injection hsome with hk
        have hlt := storeInv_id_lt (cp2 :: rest2) hc.2.2 cp hcp
        simp only [List.length_cons] at h2 hlt
        omega

end Engine

namespace Engine

theorem latest_commit (st : ThreadStore) (vals : ChannelValues) :
    ∃ cp, latest (commit st vals) = some cp ∧ cp.channel_values = vals :=
  ⟨_, rfl, rfl⟩

theorem runLoop_completed (g : GraphDef) :
    ∀ (fuel : Nat) (frontier : List NodeDef) (st : ThreadStore) (s v : ChannelValues)
      (st' : ThreadStore),
      (∃ cp, latest st = some cp ∧ cp.channel_values = s) →
      runLoop g fuel frontier st s = (RunResult.Completed v, st') →
      ∃ cp, latest st' = some cp ∧ cp.channel_values = v
  | 0, frontier, st, s, v, st', _, hrun => by
    simp only [runLoop] at hrun
    exact absurd (congrArg Prod.fst hrun) (by simp)
  | Nat.succ fuel, [], st, s, v, st', hlat, hrun => by
    simp only [runLoop] at hrun
    obtain ⟨h1, h2⟩ := Prod.mk.injEq .. ▸ hrun
    obtain ⟨cp, hcp, hv⟩ := hlat
    injection h1 with h1
    exact ⟨cp, h2 ▸ hcp, h1 ▸ hv⟩
  | Nat.succ fuel, n :: rest, st, s, v, st', hlat, hrun => by
    simp only [runLoop] at hrun
    rcases runStep_shape g.schema (n :: rest) st s with ⟨e, heq⟩ | ⟨vals, heq⟩
    · rw [heq] at hrun
      exact absurd (congrArg Prod.fst hrun) (by simp)
    · rw [heq] at hrun
      exact runLoop_completed g fuel (g.router vals) (commit st vals) vals v st'
        (latest_commit st vals) hrun

end Engine

namespace Engine

/-- Claim C1: for an `append` channel with current value `old`, when nodes A
and B both write to the channel in one superstep and A precedes B in the
fixed node order, the committed merged value is `old ++ A write ++ B write`;
and any two runs of the same step on the same frontier and inputs produce the
same merged value (the step function is deterministic). -/
theorem C1_append_channel_merge (schema : List ChannelDecl) (A B : NodeDef)
    (st : ThreadStore) (s : ChannelValues) (c : ChannelName) (wa wb : Value)
    (hA : A.run s = Except.ok [(c, wa)]) (hB : B.run s = Except.ok [(c, wb)])
    (hmem : ChannelDecl.mk c Reducer.append ∈ schema)
    (hall : ∀ d ∈ schema, d.name = c → d.reducer = Reducer.append) :
    ∃ merged, runStep schema [A, B] st s = (Except.ok merged, commit st merged) ∧
      lookupVal merged c = lookupVal s c ++ wa ++ wb ∧
      (∀ r1 r2, r1 = runStep schema [A, B] st s → r2 = runStep schema [A, B] st s →
        r1 = r2) := by
  have hmem2 : ∃ d ∈ schema, d.name = c := ⟨ChannelDecl.mk c Reducer.append, hmem, rfl⟩
  obtain ⟨m, hm, hlook⟩ := mergeAll_append_pair c wa wb s schema hall
  have hnodes : runNodes [A, B] s = Except.ok [(c, wa), (c, wb)] := by
    simpa using runNodes_pair A B s [(c, wa)] [(c, wb)] hA hB
  refine ⟨m, ?_, ?_, fun r1 r2 h1 h2 => h1.trans h2.symm⟩
  · unfold runStep
    rw [hnodes]
    simp only [allDeclared_pair_same schema c wa wb hmem2, if_true, hm]
  · rw [hlook hmem2, List.append_assoc]

/-- Witness for C1: the spec section 8 scenario — `log = [0]`, node1 writes
`[1]`, node2 writes `[2]`, merged value `[0, 1, 2]`. -/
theorem C1_append_channel_merge_witness :
    ∃ merged,
      runStep Fixtures.schemaLog [Fixtures.nodeA, Fixtures.nodeB] Fixtures.stEmpty
          [("log", [0])] = (Except.ok merged, commit Fixtures.stEmpty merged) ∧
      lookupVal merged "log" = lookupVal [("log", [0])] "log" ++ [1] ++ [2] ∧
      (∀ r1 r2,
        r1 = runStep Fixtures.schemaLog [Fixtures.nodeA, Fixtures.nodeB]
          Fixtures.stEmpty [("log", [0])] →
        r2 = runStep Fixtures.schemaLog [Fixtures.nodeA, Fixtures.nodeB]
          Fixtures.stEmpty [("log", [0])] → r1 = r2) :=
  C1_append_channel_merge Fixtures.schemaLog Fixtures.nodeA Fixtures.nodeB
    Fixtures.stEmpty [("log", [0])] "log" [1] [2] rfl rfl
    (by simp [Fixtures.schemaLog])
    (by intro d hd hn; simp [Fixtures.schemaLog] at hd; rw [hd])

/-- Claim C3: for every superstep in which a frontier node raises an
unrecoverable error, or in which a reducer conflict/failure occurs while
merging the step\'s pending writes (a `ConcurrentOverwriteConflict` or a
custom-reducer `ReducerFailure`), no checkpoint is committed for that step
(the store, and hence the prior latest checkpoint, is unchanged), and the
failure is returned to the caller as a `Failed` value of the stepping loop
rather than raised past the engine, leaving the thread resumable from the
last good checkpoint. -/
theorem C3_failed_step_not_committed (g : GraphDef) (fuel : Nat)
    (st : ThreadStore) (s : ChannelValues) (frontier : List NodeDef) :
    (∀ n ∈ frontier, ∀ err : NodeError, n.run s = Except.error err →
      ∃ failingNode,
        runStep g.schema frontier st s =
          (Except.error (StepError.nodeFailed failingNode), st) ∧
        runLoop g (fuel + 1) frontier st s =
          (RunResult.Failed (StepError.nodeFailed failingNode), st) ∧
        latest ((runLoop g (fuel + 1) frontier st s).2) = latest st) ∧
    (∀ (ws : List (ChannelName × Value)) (e : StepError),
      frontier ≠ [] →
      runNodes frontier s = Except.ok ws →
      allDeclared g.schema ws = true →
      mergeAll g.schema s ws = Except.error e →
      runStep g.schema frontier st s = (Except.error e, st) ∧
      runLoop g (fuel + 1) frontier st s = (RunResult.Failed e, st) ∧
      latest ((runLoop g (fuel + 1) frontier st s).2) = latest st) := by
  constructor
  · intro n hn err hfail
    obtain ⟨name, hname⟩ := runNodes_error_of_mem s n err frontier hn hfail
    have hstep : runStep g.schema frontier st s =
        (Except.error (StepError.nodeFailed name), st) := by
      unfold runStep
      rw [hname]
    cases frontier with
    | nil => exact absurd hn (List.not_mem_nil n)
    | cons m rest =>
      have hloop : runLoop g (fuel + 1) (m :: rest) st s =
          (RunResult.Failed (StepError.nodeFailed name), st) := by
        simp only [runLoop, hstep]
      exact ⟨name, hstep, hloop, by rw [hloop]⟩
  · intro ws e hne hnodes hdecl hmerge
    have hstep : runStep g.schema frontier st s = (Except.error e, st) := by
      unfold runStep
      rw [hnodes]
      simp only [hdecl, if_true, hmerge]
    cases frontier with
    | nil => exact absurd rfl hne
    | cons m rest =>
      have hloop : runLoop g (fuel + 1) (m :: rest) st s =
          (RunResult.Failed e, st) := by
        simp only [runLoop, hstep]
      exact ⟨hstep, hloop, by rw [hloop]⟩

/-- Witness for C3, exercising both failure sources: a step whose only node
raises an unrecoverable error; a step whose two writers conflict on an
`overwrite` channel; and a step whose custom reducer fails.  Each returns
`Failed` and leaves the store untouched. -/
theorem C3_failed_step_not_committed_witness :
    (∃ failingNode,
      runStep Fixtures.gOnce.schema [Fixtures.nodeBoom] Fixtures.stTwo [("log", [0, 1])] =
        (Except.error (StepError.nodeFailed failingNode), Fixtures.stTwo) ∧
      runLoop Fixtures.gOnce (0 + 1) [Fixtures.nodeBoom] Fixtures.stTwo [("log", [0, 1])] =
        (RunResult.Failed (StepError.nodeFailed failingNode), Fixtures.stTwo) ∧
      latest ((runLoop Fixtures.gOnce (0 + 1) [Fixtures.nodeBoom] Fixtures.stTwo
          [("log", [0, 1])]).2) = latest Fixtures.stTwo) ∧
    (runStep Fixtures.gNext.schema [Fixtures.nodeNextA, Fixtures.nodeNextB]
        Fixtures.stTwo [("next", [0])] =
      (Except.error (StepError.concurrentOverwriteConflict "next"), Fixtures.stTwo) ∧
      runLoop Fixtures.gNext (0 + 1) [Fixtures.nodeNextA, Fixtures.nodeNextB]
        Fixtures.stTwo [("next", [0])] =
      (RunResult.Failed (StepError.concurrentOverwriteConflict "next"), Fixtures.stTwo) ∧
      latest ((runLoop Fixtures.gNext (0 + 1) [Fixtures.nodeNextA, Fixtures.nodeNextB]
          Fixtures.stTwo [("next", [0])]).2) = latest Fixtures.stTwo) ∧
    (runStep Fixtures.gAcc.schema [Fixtures.nodeAcc] Fixtures.stTwo [("acc", [9])] =
      (Except.error (StepError.reducerFailure "acc"), Fixtures.stTwo) ∧
      runLoop Fixtures.gAcc (0 + 1) [Fixtures.nodeAcc] Fixtures.stTwo [("acc", [9])] =
      (RunResult.Failed (StepError.reducerFailure "acc"), Fixtures.stTwo) ∧
      latest ((runLoop Fixtures.gAcc (0 + 1) [Fixtures.nodeAcc] Fixtures.stTwo
          [("acc", [9])]).2) = latest Fixtures.stTwo) :=
  ⟨(C3_failed_step_not_committed Fixtures.gOnce 0 Fixtures.stTwo [("log", [0, 1])]
      [Fixtures.nodeBoom]).1 Fixtures.nodeBoom (List.mem_cons_self Fixtures.nodeBoom [])
      (NodeError.unrecoverable "boom") rfl,
   (C3_failed_step_not_committed Fixtures.gNext 0 Fixtures.stTwo [("next", [0])]
      [Fixtures.nodeNextA, Fixtures.nodeNextB]).2 [("next", [1]), ("next", [2])]
      (StepError.concurrentOverwriteConflict "next") (by simp) rfl rfl rfl,
   (C3_failed_step_not_committed Fixtures.gAcc 0 Fixtures.stTwo [("acc", [9])]
      [Fixtures.nodeAcc]).2 [("acc", [5])]
      (StepError.reducerFailure "acc") (by simp) rfl rfl rfl⟩

/-- Claim C4: when two nodes write the same `overwrite` channel within one
superstep, the step always fails with `ConcurrentOverwriteConflict` and no
checkpoint is committed — the pre-step store is returned unchanged. -/
theorem C4_concurrent_overwrite_conflict (schema : List ChannelDecl)
    (A B : NodeDef) (st : ThreadStore) (s : ChannelValues) (c : ChannelName)
    (wa wb : Value)
    (hA : A.run s = Except.ok [(c, wa)]) (hB : B.run s = Except.ok [(c, wb)])
    (hmem : ChannelDecl.mk c Reducer.overwrite ∈ schema)
    (hall : ∀ d ∈ schema, d.name = c → d.reducer = Reducer.overwrite) :
    runStep schema [A, B] st s =
      (Except.error (StepError.concurrentOverwriteConflict c), st) := by
  have hmem2 : ∃ d ∈ schema, d.name = c := ⟨ChannelDecl.mk c Reducer.overwrite, hmem, rfl⟩
  have hnodes : runNodes [A, B] s = Except.ok [(c, wa), (c, wb)] := by
    simpa using runNodes_pair A B s [(c, wa)] [(c, wb)] hA hB
  have hmerge := mergeAll_overwrite_pair c wa wb s schema hall hmem2
  unfold runStep
  rw [hnodes]
  simp only [allDeclared_pair_same schema c wa wb hmem2, if_true, hmerge]

/-- Witness for C4: two writers of the `next` overwrite channel in one step
yield `ConcurrentOverwriteConflict` with the store unchanged. -/
theorem C4_concurrent_overwrite_conflict_witness :
    runStep Fixtures.schemaNext [Fixtures.nodeNextA, Fixtures.nodeNextB]
        Fixtures.stTwo [("next", [0])] =
      (Except.error (StepError.concurrentOverwriteConflict "next"), Fixtures.stTwo) :=
  C4_concurrent_overwrite_conflict Fixtures.schemaNext Fixtures.nodeNextA
    Fixtures.nodeNextB Fixtures.stTwo [("next", [0])] "next" [1] [2] rfl rfl
    (by simp [Fixtures.schemaNext])
    (by intro d hd hn; simp [Fixtures.schemaNext] at hd; rw [hd])

end Engine

namespace Engine

/-- Claim C2: for every thread whose checkpoint log satisfies the engine's
append-only structure (`storeInv`, established for every engine-produced
store by the second and third conjuncts), `get_history` is a finite list,
newest first (ids strictly descending, hence acyclic), forming a strict
parent-chain with no gaps back to the first checkpoint; committing never
mutates the already-persisted entries (the old history is an exact suffix of
the new one). -/
theorem C2_history_parent_chain :
    (∀ st : ThreadStore, storeInv st.checkpoints = true →
      isParentChain (get_history st) = true ∧ idsStrictDesc (get_history st) = true) ∧
    (∀ (st : ThreadStore) (vals : ChannelValues), storeInv st.checkpoints = true →
      storeInv (commit st vals).checkpoints = true ∧
      (get_history (commit st vals)).drop 1 = get_history st) ∧
    (∀ (g : GraphDef) (fuel : Nat) (input : List (ChannelName × Value))
        (st : ThreadStore), storeInv st.checkpoints = true →
      storeInv (run g fuel input st).2.checkpoints = true) :=
  ⟨fun st h => ⟨storeInv_chain st.checkpoints h, storeInv_desc st.checkpoints h⟩,
   fun st vals h => ⟨storeInv_commit st vals h, rfl⟩,
   fun g fuel input st h => run_inv g fuel input st h⟩

/-- Witness for C2: the two-checkpoint store built by the engine's append
operation is a strict, descending parent-chain, and a further commit leaves
the persisted entries intact. -/
theorem C2_history_parent_chain_witness :
    isParentChain (get_history Fixtures.stTwo) = true ∧
    idsStrictDesc (get_history Fixtures.stTwo) = true ∧
    (get_history (commit Fixtures.stTwo [("log", [0, 1, 2])])).drop 1 =
      get_history Fixtures.stTwo :=
  ⟨(C2_history_parent_chain.1 Fixtures.stTwo (by decide)).1,
   (C2_history_parent_chain.1 Fixtures.stTwo (by decide)).2,
   (C2_history_parent_chain.2.1 Fixtures.stTwo [("log", [0, 1, 2])] (by decide)).2⟩

/-- Claim C5: a thread suspended by a node's `suspend(payload)` freezes with
the payload and the node's continuation durably recorded and nothing
committed; `resume` re-enters the same node at the suspension point with the
decision injected as the `suspend` call's return value; and resuming with
`approve` produces exactly the run (result and final store) of the equivalent
execution in which the node never suspended and directly returned the
approved outcome. -/
theorem C5_resume_approve_equivalence (g : GraphDef) (fuel : Nat)
    (payload : Value) (cont : Decision → List (ChannelName × Value))
    (st : ThreadStore) (s : ChannelValues) :
    runWithHitl g fuel (NodeProg.suspendOn payload cont) st s
      = HitlOutcome.suspended payload (PendingInterrupt.mk cont st s) ∧
    (∀ (pend : PendingInterrupt) (d : Decision),
      resume g fuel pend d = runFrom g fuel (pend.cont d) pend.st pend.s) ∧
    runWithHitl g fuel (NodeProg.ret (cont Decision.approve)) st s
      = HitlOutcome.finished
          (resume g fuel (PendingInterrupt.mk cont st s) Decision.approve) :=
  ⟨rfl, fun _ _ => rfl, rfl⟩

/-- Claim C6: whenever `run` returns `Completed{final_state}`, reading
`get_state` on the resulting store yields exactly those channel values (the
round-trip between the returned final state and the persisted latest
checkpoint). -/
theorem C6_get_state_roundtrip (g : GraphDef) (fuel : Nat)
    (input : List (ChannelName × Value)) (st : ThreadStore)
    (v : ChannelValues) (st2 : ThreadStore)
    (h : run g fuel input st = (RunResult.Completed v, st2)) :
    ∃ cid, get_state st2 = some (cid, v) := by
  unfold run at h
  by_cases hd : allDeclared g.schema input = true
  · simp only [hd, if_true] at h
    cases hm : mergeAll g.schema
        (match latest st with
         | none => []
         | some cp => cp.channel_values) input with
    | error e =>
      rw [hm] at h
      exact absurd (congrArg Prod.fst h) (by simp)
    | ok s0 =>
      rw [hm] at h
      obtain ⟨cp, hcp, hv⟩ :=
        runLoop_completed g fuel g.entry (commit st s0) s0 v st2
          (latest_commit st s0) h
      exact ⟨cp.checkpoint_id, by simp [get_state, hcp, hv]⟩
  · simp only [hd, if_false] at h
    exact absurd (congrArg Prod.fst h) (by simp)

/-- Witness for C6: running the one-node graph from an empty thread completes
with `log = [7, 1]`, and `get_state` returns exactly those values. -/
theorem C6_get_state_roundtrip_witness :
    ∃ cid, get_state (run Fixtures.gOnce 2 [("log", [7])] Fixtures.stEmpty).2 =
      some (cid, [("log", [7, 1])]) :=
  C6_get_state_roundtrip Fixtures.gOnce 2 [("log", [7])] Fixtures.stEmpty
    [("log", [7, 1])] (run Fixtures.gOnce 2 [("log", [7])] Fixtures.stEmpty).2 rfl

/-- Claim C7: when two calls contend for the same thread (the second arriving
while the first still holds the per-thread lock), exactly one call produces a
run result and the other is rejected with `ThreadBusy`, whichever call wins
the lock; and the resulting checkpoint store still satisfies the engine
invariant, so it never contains two committed checkpoints with the same
parent pointer. -/
theorem C7_thread_busy_exclusion (g1 g2 : GraphDef) (fuel1 fuel2 : Nat)
    (in1 in2 : List (ChannelName × Value)) (e : EngineState) (first : Bool)
    (hlock : e.lock = false) (hinv : storeInv e.store.checkpoints = true) :
    ((∃ r, (interleavedRun first g1 fuel1 in1 g2 fuel2 in2 e).1 =
        (CallResult.done r, CallResult.threadBusy)) ∨
     (∃ r, (interleavedRun first g1 fuel1 in1 g2 fuel2 in2 e).1 =
        (CallResult.threadBusy, CallResult.done r))) ∧
    storeInv (interleavedRun first g1 fuel1 in1 g2 fuel2 in2 e).2.store.checkpoints
      = true ∧
    nodupParents
      (interleavedRun first g1 fuel1 in1 g2 fuel2 in2 e).2.store.checkpoints
      = true := by
  cases first with
  | true =>
    simp only [interleavedRun, tryAcquire, hlock, if_true, if_false, Bool.false_eq_true,
      runCall, finishRun]
    refine ⟨Or.inl ⟨(run g1 fuel1 in1 e.store).1, rfl⟩, ?_, ?_⟩
    · exact run_inv g1 fuel1 in1 e.store hinv
    · exact storeInv_nodupParents _ (run_inv g1 fuel1 in1 e.store hinv)
  | false =>
    simp only [interleavedRun, tryAcquire, hlock, if_true, if_false, Bool.false_eq_true,
      runCall, finishRun]
    refine ⟨Or.inr ⟨(run g2 fuel2 in2 e.store).1, rfl⟩, ?_, ?_⟩
    · exact run_inv g2 fuel2 in2 e.store hinv
    · exact storeInv_nodupParents _ (run_inv g2 fuel2 in2 e.store hinv)

/-- Witness for C7: two contending runs of the one-node graph on a fresh
thread — one completes, the other is rejected, and the final store has no
duplicate parent pointers. -/
theorem C7_thread_busy_exclusion_witness :
    ((∃ r, (interleavedRun true Fixtures.gOnce 2 [("log", [7])] Fixtures.gOnce 2
        [("log", [7])] Fixtures.engFresh).1 =
        (CallResult.done r, CallResult.threadBusy)) ∨
     (∃ r, (interleavedRun true Fixtures.gOnce 2 [("log", [7])] Fixtures.gOnce 2
        [("log", [7])] Fixtures.engFresh).1 =
        (CallResult.threadBusy, CallResult.done r))) ∧
    storeInv (interleavedRun true Fixtures.gOnce 2 [("log", [7])] Fixtures.gOnce 2
        [("log", [7])] Fixtures.engFresh).2.store.checkpoints = true ∧
    nodupParents (interleavedRun true Fixtures.gOnce 2 [("log", [7])] Fixtures.gOnce 2
        [("log", [7])] Fixtures.engFresh).2.store.checkpoints = true :=
  C7_thread_busy_exclusion Fixtures.gOnce Fixtures.gOnce 2 2 [("log", [7])]
    [("log", [7])] Fixtures.engFresh true rfl (by decide)

end Engine

namespace SharedStateDemo

/-- Claim C8: in `supervisor_node` the routing decision stored in
`next_agent` is determined solely by which state fields are present
(`web_results`, `analysis`, `final_report`): for any two executions on the
same input state in which the advisory model call returns different texts,
the chosen `next_agent` (and `current_step`), and therefore the destination
selected by the conditional edge `route_supervisor`, are identical. -/
theorem C8_routing_independent_of_model (state : ResearchState)
    (r1 r2 : Message) :
    (supervisor_node state r1).next_agent = (supervisor_node state r2).next_agent ∧
    (supervisor_node state r1).current_step = (supervisor_node state r2).current_step ∧
    route_supervisor (applyUpdate state (supervisor_node state r1)) =
      route_supervisor (applyUpdate state (supervisor_node state r2)) :=
  ⟨rfl, rfl, rfl⟩

end SharedStateDemo

namespace Sales

/-- Claim C9: in `qualifier_agent`, for every state in which `can_afford` is
already set (not None), if the lowercased content of the last message
contains any of the substrings `yes`, `yeah`, `sure`, `afford`, or `can`,
the node returns `qualification=True, can_afford=True, budget=300,
current_stage="closing"`; otherwise it returns `qualification=False,
can_afford=False, current_stage="disqualified"`.  In particular a refusal
such as `No, I can't afford $300` is classified as qualified, because `can`
and `afford` occur in it as substrings. -/
theorem C9_qualifier_keyword_detection (state : SalesState) (b : Bool)
    (resp now : String) (h : state.can_afford = some b) :
    (keywordHit state.messages = true →
      qualifier_agent state resp now =
        QualifierUpdate.mk [SalesMessage.mk qualifiedReply]
          (some true) (some true) (some 300) "closing" now) ∧
    (keywordHit state.messages = false →
      qualifier_agent state resp now =
        QualifierUpdate.mk [SalesMessage.mk disqualifiedReply]
          (some false) (some false) none "disqualified" now) ∧
    qualifier_agent Fixtures.refusalState resp now =
      QualifierUpdate.mk [SalesMessage.mk qualifiedReply]
        (some true) (some true) (some 300) "closing" now := by
  have hrefusal : keywordHit [SalesMessage.mk "No, I can\x27t afford $300"] = true := by
    decide
  refine ⟨?_, ?_, ?_⟩
  · intro hk
    simp only [qualifier_agent, h, hk, if_true]
  · intro hk
    simp only [qualifier_agent, h, hk, Bool.false_eq_true, if_false]
  · show qualifier_agent Fixtures.refusalState resp now = _
    simp only [qualifier_agent, Fixtures.refusalState, hrefusal, if_true]

/-- Witness for C9: the concrete refusal `No, I can't afford $300` with
`can_afford` already set is classified as qualified (stage `closing`,
`budget=300`). -/
theorem C9_qualifier_keyword_detection_witness :
    qualifier_agent Fixtures.refusalState "ok" "2025-01-01T00:00:00" =
      QualifierUpdate.mk [SalesMessage.mk qualifiedReply]
        (some true) (some true) (some 300) "closing" "2025-01-01T00:00:00" :=
  (C9_qualifier_keyword_detection Fixtures.refusalState false "ok"
    "2025-01-01T00:00:00" rfl).1 (by decide)

end Sales

namespace EmailCal

/-- Claim C10: the substring-matching supervisors apply their checks in a
fixed order with the first match winning: any model response whose lowercased
text contains `calendar` routes to the calendar agent even if it also
contains `email`; in the communication-team supervisor a response containing
`email` routes to the email agent even if it also contains `slack`; and a
supervisor yields `FINISH` exactly when the response contains none of its
checked substrings. -/
theorem C10_first_matching_substring (c : String) :
    (PyStr.containsSub (PyStr.toLowerPy (PyStr.stripPy c)) "calendar" = true →
      supervisorNextAgent c = "calendar") ∧
    (PyStr.containsSub (PyStr.toLowerPy (PyStr.stripPy c)) "email" = true →
      communicationNextAgent c = "email") ∧
    (supervisorNextAgent c = "FINISH" ↔
      PyStr.containsSub (PyStr.toLowerPy (PyStr.stripPy c)) "calendar" = false ∧
      PyStr.containsSub (PyStr.toLowerPy (PyStr.stripPy c)) "email" = false) ∧
    (communicationNextAgent c = "FINISH" ↔
      PyStr.containsSub (PyStr.toLowerPy (PyStr.stripPy c)) "email" = false ∧
      PyStr.containsSub (PyStr.toLowerPy (PyStr.stripPy c)) "slack" = false) := by
  refine ⟨?_, ?_, ?_, ?_⟩
  · intro hcal
    simp [supervisorNextAgent, hcal]
  · intro hem
    simp [communicationNextAgent, hem]
  · unfold supervisorNextAgent
    by_cases hcal : PyStr.containsSub (PyStr.toLowerPy (PyStr.stripPy c)) "calendar" = true
    · simp [hcal]
    · by_cases hem : PyStr.containsSub (PyStr.toLowerPy (PyStr.stripPy c)) "email" = true
      · simp [hcal, hem]
      · simp [hcal, hem]
  · unfold communicationNextAgent
    by_cases hem : PyStr.containsSub (PyStr.toLowerPy (PyStr.stripPy c)) "email" = true
    · simp [hem]
    · by_cases hsl : PyStr.containsSub (PyStr.toLowerPy (PyStr.stripPy c)) "slack" = true
      · simp [hem, hsl]
      · simp [hem, hsl]

/-- Witness for C10: a response containing both `calendar` and `email` routes
to calendar; a communication-team response containing both `email` and
`slack` routes to email; a response with none of the substrings yields
`FINISH`. -/
theorem C10_first_matching_substring_witness :
    supervisorNextAgent " Use the CALENDAR and then email " = "calendar" ∧
    communicationNextAgent "send an Email and a slack message" = "email" ∧
    supervisorNextAgent "nothing to do here" = "FINISH" :=
  ⟨(C10_first_matching_substring " Use the CALENDAR and then email ").1 (by decide),
   (C10_first_matching_substring "send an Email and a slack message").2.1 (by decide),
   (C10_first_matching_substring "nothing to do here").2.2.1.mpr (by decide)⟩

end EmailCal
